import Mathlib

/-!
Verification development for the EnigmaMachine-Embedded repository.

This file gives a shallow embedding, in Lean 4, of the parts of the C source
that the specification's claims are about:

* the Enigma cipher engine (`src/enigma/src/enigmaAPI.c`),
* the plugboard scanner (`src/plugboard/src/plugb.c`),
* the PS/2 receive interrupt handler (`src/enigma/src/PS2Keyboard.c`),
* the application finite state machine (`src/enigma/src/FSM.c`),

together with theorems settling each claim.  C strings are modeled as
`List Char`, C `int` as `Int` (with `Int.tmod` for the C `%` operator, which
truncates toward zero), bit flags as `Bool` fields, and the mutable globals
as explicit state records threaded through the functions.  A C array read
`a[i]` is modeled by `charAt`, which returns a dummy `'?'` when `i` is out of
range (out-of-range reads are undefined behavior in C; every theorem below
only exercises in-range reads).
-/

/-- The constant `ROTATE` (26) from enigmaAPI.c. -/
def ROTATE : Int := 26

/-- The alphabet string `alpha` from enigmaAPI.c. -/
def alpha : List Char := "ABCDEFGHIJKLMNOPQRSTUVWXYZ".toList

/-- The rotor wiring table `rotor_ciphers` from enigmaAPI.c (rotors I..VIII). -/
def rotor_ciphers : List (List Char) :=
  [ "EKMFLGDQVZNTOWYHXUSPAIBRCJ".toList,
    "AJDKSIRUXBLHWTMCQGZNPYFVOE".toList,
    "BDFHJLCPRTXVZNYEIWGAKMUSQO".toList,
    "ESOVPZJAYQUIRHXLNFTGKDCMWB".toList,
    "VZBRGITYUPSDNHLXAWMJQOFECK".toList,
    "JPGVOUMFYQBENHZRDKASXLICTW".toList,
    "NZJHGRCXMYSWBOUFAIVLPEKQDT".toList,
    "FKQHTLXOCBJSPDZRAMEWNIUYGV".toList ]

/-- The `rotor_notches` table from enigmaAPI.c. -/
def rotor_notches : List (List Char) :=
  [ "Q".toList, "E".toList, "V".toList, "J".toList, "Z".toList,
    "ZM".toList, "ZM".toList, "ZM".toList ]

/-- The `rotor_turnovers` table from enigmaAPI.c. -/
def rotor_turnovers : List (List Char) :=
  [ "R".toList, "F".toList, "W".toList, "K".toList, "A".toList,
    "AN".toList, "AN".toList, "AN".toList ]

/-- The `reflectors` table from enigmaAPI.c (reflectors A, B, C). -/
def reflectors : List (List Char) :=
  [ "EJMZALYXVBWFCRQUONTSPIKHGD".toList,
    "YRUHQSLDPXNGOKMIEBFZCWVJAT".toList,
    "FVPJIAOYEDRZXWGCTKUQSBNMHL".toList ]

/-- `str_index` from enigmaAPI.c: index of the first occurrence of a character
in a string, `-1` when absent (`strchr` plus pointer arithmetic). -/
def str_index (str : List Char) (character : Char) : Int :=
  match str.findIdx? (· = character) with
  | some i => (i : Int)
  | none => -1

/-- C array read `str[i]` on a `char` array, with a dummy value out of range. -/
def charAt (str : List Char) (i : Int) : Char :=
  if 0 ≤ i then str.getD i.toNat '?' else '?'

/-- C array read `table[i]` on the string tables, with a dummy out of range. -/
def tableAt (table : List (List Char)) (i : Int) : List Char :=
  if 0 ≤ i then table.getD i.toNat [] else []

/-- `struct Rotor` from enigmaAPI.c.  The C field `turnnext` is an `int` that
only ever holds 0 or 1; it is modeled as a `Bool`. -/
structure Rotor where
  offset : Int
  turnnext : Bool
  cipher : List Char
  turnover : List Char
  notch : List Char
  deriving Repr, DecidableEq

/-- `struct Enigma` from enigmaAPI.c, specialized to `numrotors = 3`: the
only writer of `numrotors` is `EnigmaAPI_Init`, which always stores 3, so the
rotor array and the `for` loops over `numrotors` are unrolled to the three
fields `r0`, `r1`, `r2` (fast to slow). -/
structure Enigma where
  reflector : List Char
  r0 : Rotor
  r1 : Rotor
  r2 : Rotor
  deriving Repr, DecidableEq

/-- `new_rotor` from enigmaAPI.c. -/
def new_rotor (rotornumber : Int) (offset : Int) : Rotor :=
  { offset := offset
    turnnext := false
    cipher := tableAt rotor_ciphers (rotornumber - 1)
    turnover := tableAt rotor_turnovers (rotornumber - 1)
    notch := tableAt rotor_notches (rotornumber - 1) }

/-- `rotor_cycle` from enigmaAPI.c: advance the offset by one (mod 26) and
set `turnnext` when the new offset is a turnover position (the flag is left
unchanged otherwise). -/
def rotor_cycle (rotor : Rotor) : Rotor :=
  let offset := (rotor.offset + 1).tmod ROTATE
  { rotor with
      offset := offset
      turnnext :=
        if 0 ≤ str_index rotor.turnover (charAt alpha offset) then true
        else rotor.turnnext }

/-- `rotor_forward` from enigmaAPI.c. -/
def rotor_forward (rotor : Rotor) (index : Int) : Int :=
  let index := (index + rotor.offset).tmod ROTATE
  let index := str_index alpha (charAt rotor.cipher index)
  (ROTATE + index - rotor.offset).tmod ROTATE

/-- `rotor_reverse` from enigmaAPI.c. -/
def rotor_reverse (rotor : Rotor) (index : Int) : Int :=
  let index := (index + rotor.offset).tmod ROTATE
  let index := str_index rotor.cipher (charAt alpha index)
  (ROTATE + index - rotor.offset).tmod ROTATE

/-- `EnigmaAPI_Init` from enigmaAPI.c (the global `machine` is modeled as the
returned value). -/
def EnigmaAPI_Init (rotor1 rotor2 rotor3 reflector offset1 offset2 offset3 : Int) :
    Enigma :=
  { reflector := tableAt reflectors reflector
    r0 := new_rotor rotor1 offset1
    r1 := new_rotor rotor2 offset2
    r2 := new_rotor rotor3 offset3 }

/-- `EnigmaAPI_GetRotorValue` from enigmaAPI.c. -/
def EnigmaAPI_GetRotorValue (rotor : Int) (m : Enigma) : Int :=
  if rotor = 0 then m.r0.offset
  else if rotor = 1 then m.r1.offset
  else m.r2.offset

/-- `toupper` from ctype.h as used by `EnigmaAPI_EncryptChar`. -/
def toupper (c : Char) : Char :=
  if 'a' ≤ c ∧ c ≤ 'z' then Char.ofNat (c.toNat - 32) else c

/-- The rotor-stepping prefix of `EnigmaAPI_EncryptChar`
(enigmaAPI.c lines 251-264): cycle the first rotor, double-step the middle
rotor when its current offset is a notch position, then propagate `turnnext`
flags through the `for (i = 0; i < numrotors - 1; i++)` loop (unrolled for
`numrotors = 3`). -/
def enigma_step (m : Enigma) : Enigma :=
  let r0 := rotor_cycle m.r0
  let r1 :=
    if 0 ≤ str_index m.r1.notch (charAt alpha m.r1.offset) then rotor_cycle m.r1
    else m.r1
  if r0.turnnext then
    let r0 := { r0 with turnnext := false }
    let r1 := rotor_cycle r1
    if r1.turnnext then
      { m with r0 := r0, r1 := { r1 with turnnext := false }, r2 := rotor_cycle m.r2 }
    else
      { m with r0 := r0, r1 := r1, r2 := m.r2 }
  else
    if r1.turnnext then
      { m with r0 := r0, r1 := { r1 with turnnext := false }, r2 := rotor_cycle m.r2 }
    else
      { m with r0 := r0, r1 := r1, r2 := m.r2 }

/-- The C expression `plugboardMappings[c - 'A']`: one plugboard lookup,
exactly as both `EnigmaAPI_EncryptChar` applications read the mapping. -/
def pbApply (pb : List Char) (c : Char) : Char :=
  charAt pb ((c.toNat : Int) - ('A'.toNat : Int))

/-- The forward pass `for (i = 0; i < numrotors; i++)` of
`EnigmaAPI_EncryptChar`, unrolled for `numrotors = 3`. -/
def fwd3 (m : Enigma) (index : Int) : Int :=
  rotor_forward m.r2 (rotor_forward m.r1 (rotor_forward m.r0 index))

/-- The reverse pass `for (i = numrotors - 1; i >= 0; i--)` of
`EnigmaAPI_EncryptChar`, unrolled for `numrotors = 3`. -/
def rev3 (m : Enigma) (index : Int) : Int :=
  rotor_reverse m.r0 (rotor_reverse m.r1 (rotor_reverse m.r2 index))

/-- The reflector pass of `EnigmaAPI_EncryptChar`:
`character = machine.reflector[index]; index = str_index(alpha, character)`. -/
def reflect (m : Enigma) (index : Int) : Int :=
  str_index alpha (charAt m.reflector index)

/-- `EnigmaAPI_EncryptChar` from enigmaAPI.c.  The global plugboard pointer
`plugboardMappings` is passed explicitly; the function returns the encrypted
character together with the mutated machine. -/
def EnigmaAPI_EncryptChar (pb : List Char) (m : Enigma) (character : Char) :
    Char × Enigma :=
  let character := toupper character
  let character := pbApply pb character
  let index := str_index alpha character
  let m := enigma_step m
  let index := fwd3 m index
  let index := reflect m index
  let index := rev3 m index
  (pbApply pb (charAt alpha index), m)

/-- The initial value of the global `plugboardMappings` in enigmaAPI.c:
the identity mapping. -/
def identityMapping : List Char := "ABCDEFGHIJKLMNOPQRSTUVWXYZ".toList

/-- Encrypt a list of characters in sequence, threading the machine state. -/
def encryptList (pb : List Char) (m : Enigma) : List Char → List Char × Enigma
  | [] => ([], m)
  | c :: cs =>
    let r := EnigmaAPI_EncryptChar pb m c
    let rest := encryptList pb r.2 cs
    (r.1 :: rest.1, rest.2)

/-- A rotor state constructible through the engine's own API: its cipher is
one of the eight table wirings and its offset is in range.  `EnigmaAPI_Init`
with in-range arguments produces such rotors and `enigma_step` preserves the
property. -/
@[reducible] def validRotor (r : Rotor) : Prop :=
  r.cipher ∈ rotor_ciphers ∧ 0 ≤ r.offset ∧ r.offset < 26

/-- A machine state constructible through the engine's own API. -/
@[reducible] def validEnigma (m : Enigma) : Prop :=
  validRotor m.r0 ∧ validRotor m.r1 ∧ validRotor m.r2 ∧ m.reflector ∈ reflectors

/-- The plugboard mapping is an involution on A..Z, in the exact sense in
which `EnigmaAPI_EncryptChar` reads it: looking up `pb[c - 'A']` lands in
A..Z and doing it twice returns to `c`. -/
@[reducible] def pbInvolution (pb : List Char) : Prop :=
  ∀ c ∈ alpha, pbApply pb c ∈ alpha ∧ pbApply pb (pbApply pb c) = c

/-- The rotor-stepping algorithm exactly as the specification words it
(spec §4.A "Stepping algorithm", claim C3):
1. advance R1 by 1 (mod 26), its `step_next` set exactly when the new offset
   is a turnover position;
2. if R2's current offset is a notch position, advance R2 (double-step),
   propagating its own turnover flag;
3. for i = 1..2 in order, a set `step_next` of rotor i is cleared and rotor
   i+1 is advanced, setting that rotor's `step_next` when its new offset is
   a turnover position. -/
def spec_step (m : Enigma) : Enigma :=
  let r0 : Rotor :=
    { m.r0 with
        offset := (m.r0.offset + 1) % 26
        turnnext := decide (charAt alpha ((m.r0.offset + 1) % 26) ∈ m.r0.turnover) }
  let r1 : Rotor :=
    if charAt alpha m.r1.offset ∈ m.r1.notch then
      { m.r1 with
          offset := (m.r1.offset + 1) % 26
          turnnext :=
            if charAt alpha ((m.r1.offset + 1) % 26) ∈ m.r1.turnover then true
            else m.r1.turnnext }
    else m.r1
  if r0.turnnext then
    let r0 := { r0 with turnnext := false }
    let r1 : Rotor :=
      { r1 with
          offset := (r1.offset + 1) % 26
          turnnext :=
            if charAt alpha ((r1.offset + 1) % 26) ∈ r1.turnover then true
            else r1.turnnext }
    if r1.turnnext then
      { m with r0 := r0, r1 := { r1 with turnnext := false },
               r2 := { m.r2 with
                  offset := (m.r2.offset + 1) % 26
                  turnnext :=
                    if charAt alpha ((m.r2.offset + 1) % 26) ∈ m.r2.turnover then true
                    else m.r2.turnnext } }
    else
      { m with r0 := r0, r1 := r1, r2 := m.r2 }
  else
    if r1.turnnext then
      { m with r0 := r0, r1 := { r1 with turnnext := false },
               r2 := { m.r2 with
                  offset := (m.r2.offset + 1) % 26
                  turnnext :=
                    if charAt alpha ((m.r2.offset + 1) % 26) ∈ m.r2.turnover then true
                    else m.r2.turnnext } }
    else
      { m with r0 := r0, r1 := r1, r2 := m.r2 }

/-- The engine-level global state of enigmaAPI.c: the `plugboardMappings`
pointer and the `machine` struct. -/
structure ApiState where
  plugboardMappings : List Char
  machine : Enigma
  deriving Repr, DecidableEq

/-- `EnigmaAPI_SetPlugboardMapping` from enigmaAPI.c: the function body is
the single assignment `plugboardMappings = mapping;`. -/
def EnigmaAPI_SetPlugboardMapping (mapping : List Char) (s : ApiState) : ApiState :=
  { s with plugboardMappings := mapping }

/-- A concrete mapping that is not an involution: A→B, B→C, C→A. -/
def badMapping : List Char := "BCADEFGHIJKLMNOPQRSTUVWXYZ".toList

/-- A concrete engine state: identity plugboard, rotors III, II, I,
reflector B, all offsets zero. -/
def apiState0 : ApiState :=
  { plugboardMappings := identityMapping
    machine := EnigmaAPI_Init 3 2 1 1 0 0 0 }

/-! ### Plugboard scanner (src/plugboard/src/plugb.c) -/

/-- `PLUGB_GetMapping` from plugb.c. -/
def PLUGB_GetMapping (pb : List Char) (input : Char) : Char :=
  if 'A' ≤ input ∧ input ≤ 'Z' then
    charAt pb ((input.toNat : Int) - ('A'.toNat : Int))
  else
    Char.ofNat 0

/-- The inner `for (j = 0; j < NUM_LETTERS; j++)` sweep of `PLUGB_Scan`,
starting at column `j`.  `reads i j` is the value `gpioRead(pinMapping[j])`
returns while pin `i` is driven high (each pin is read at most once per
sweep, so a function of `(i, j)` captures every possible observed read
sequence).  On a high read the pair is written and the sweep stops; on a low
read the row letter is written back to itself and the sweep continues.
The loop counter is mirrored by a structural fuel argument (the number of
remaining iterations, 26 at the top-level call, never exhausted: when fuel
reaches 0 the column counter is already 26 and the loop has ended). -/
def scanInner (reads : Nat → Nat → Bool) (i : Nat) : Nat → Nat → List Char → List Char
  | 0, _, pb => pb
  | fuel + 1, j, pb =>
    if j < 26 then
      if i ≠ j then
        if reads i j then
          (pb.set i (Char.ofNat ('A'.toNat + j))).set j (Char.ofNat ('A'.toNat + i))
        else
          scanInner reads i fuel (j + 1) (pb.set i (Char.ofNat ('A'.toNat + i)))
      else
        scanInner reads i fuel (j + 1) pb
    else pb

/-- The outer `for (i = 0; i < NUM_LETTERS; i++)` sweep of `PLUGB_Scan`,
with the same fuel treatment as `scanInner`. -/
def scanOuter (reads : Nat → Nat → Bool) : Nat → Nat → List Char → List Char
  | 0, _, pb => pb
  | fuel + 1, i, pb =>
    if i < 26 then scanOuter reads fuel (i + 1) (scanInner reads i 26 0 pb) else pb

/-- `PLUGB_Scan` from plugb.c, as a function of the pin-read results and of
the mapping array it updates in place. -/
def PLUGB_Scan (reads : Nat → Nat → Bool) (pb : List Char) : List Char :=
  scanOuter reads 26 0 pb

/-- A concrete sweep observation: pin 1 reads high while pin 0 is driven,
and pin 2 reads high while pin 1 is driven (pin 0 reading low at that
moment).  Physically this is a fault, but it is a possible sequence of
pin-read results. -/
def readsCE (i j : Nat) : Bool :=
  (i = 0 && j = 1) || (i = 1 && j = 2)

/-- A physical wiring: one patch cable joining letters A and B, expressed as
the partial matching (involution) it induces on letter indices. -/
def swapAB (i : Nat) : Nat :=
  if i = 0 then 1 else if i = 1 then 0 else i

/-! ### PS/2 receive path (src/enigma/src/PS2Keyboard.c)

The driver's globals are gathered in one record.  The bit-packed flag bytes
`_ps2mode` (bits `_PS2_BUSY`, `_TX_MODE`, `_BREAK_KEY`, `_WAIT_RESPONSE`,
`_E0_MODE`, `_E1_MODE`, `_LAST_VALID`) and `_tx_ready` (bits `_HANDSHAKE`,
`_COMMAND`) are modeled as one `Bool` field per bit.  Hardware-only effects
(GPIO writes, NVIC calls, delays) have no state in the model. -/

/-- Driver state: the private globals of PS2Keyboard.c. -/
structure PS2State where
  ps2busy : Bool
  txmode : Bool
  breakkey : Bool
  waitresponse : Bool
  e0mode : Bool
  e1mode : Bool
  lastvalid : Bool
  rx_buffer : List Nat
  head : Nat
  tail : Nat
  bytes_expected : Int
  bitcount : Nat
  shiftdata : Nat
  parity : Nat
  tx_buff : List Nat
  tx_head : Nat
  tx_tail : Nat
  last_sent : Nat
  now_send : Nat
  response_count : Nat
  tx_handshake : Bool
  tx_command : Bool
  keystatus : Nat
  led_lock : Nat
  deriving Repr, DecidableEq

/-- Modelled from the spec: the scan-code constants of PS2KeyCode.h, which
is not among the source files (only PS2Keyboard.c, which uses the names,
is).  Values are those of spec §4.C "Decoder" and §6 "PS/2 commands used":
RESEND 0xFE, OVERRUN 0xFF, ERROR (BAT fail) 0xFC, BREAK prefix 0xF0, ECHO
0xEE, BAT pass 0xAA, E0/E1 extend prefixes. -/
def PS2_KC_RESEND : Nat := 0xFE

/-- Modelled from the spec: see `PS2_KC_RESEND`. -/
def PS2_KC_OVERRUN : Nat := 0xFF

/-- Modelled from the spec: see `PS2_KC_RESEND`. -/
def PS2_KC_ERROR : Nat := 0xFC

/-- Modelled from the spec: see `PS2_KC_RESEND`. -/
def PS2_KC_KEYBREAK : Nat := 0xF0

/-- Modelled from the spec: see `PS2_KC_RESEND`. -/
def PS2_KC_ECHO : Nat := 0xEE

/-- Modelled from the spec: see `PS2_KC_RESEND`. -/
def PS2_KC_BAT : Nat := 0xAA

/-- Modelled from the spec: see `PS2_KC_RESEND`. -/
def PS2_KC_EXTEND1 : Nat := 0xE1

/-- Modelled from the spec: see `PS2_KC_RESEND`. -/
def PS2_KC_EXTEND : Nat := 0xE0

/-- Modelled from the spec: `PS2_KEY_IGNORE`, the placeholder byte marking
an expected response in the transmit queue (spec §4.C "Transmit"). -/
def PS2_KEY_IGNORE : Nat := 0x90

/-- Modelled from the spec: the raw ring-buffer capacity (spec §3 calls it a
fixed-capacity ring buffer; the defining header is not among the sources). -/
def RX_BUFFER_SIZE : Nat := 16

/-- Modelled from the spec: the transmit ring-buffer capacity. -/
def TX_BUFFER_SIZE : Nat := 16

/-- The byte value of `_ps2mode`, as stored into the upper half of an
`_rx_buffer` entry (bit layout from the comment block in PS2Keyboard.c). -/
def modeByte (s : PS2State) : Nat :=
  (if s.ps2busy then 128 else 0) + (if s.txmode then 64 else 0) +
  (if s.breakkey then 32 else 0) + (if s.waitresponse then 16 else 0) +
  (if s.e0mode then 8 else 0) + (if s.e1mode then 4 else 0) +
  (if s.lastvalid then 2 else 0)

/-- `ps2_reset` from PS2Keyboard.c. -/
def ps2_reset (s : PS2State) : PS2State :=
  { s with
      tx_head := 0, tx_tail := 0, tx_handshake := false, tx_command := false,
      response_count := 0, head := 0, tail := 0, bitcount := 0,
      keystatus := 0, led_lock := 0,
      ps2busy := false, txmode := false, breakkey := false,
      waitresponse := false, e0mode := false, e1mode := false,
      lastvalid := false }

/-- `decode_key` from PS2Keyboard.c: classify a received byte, returning the
bitwise status code together with the mutated driver state. -/
def decode_key (value : Nat) (s : PS2State) : Nat × PS2State :=
  let s := if value ≠ PS2_KC_RESEND then { s with lastvalid := false } else s
  if s.waitresponse ∧ value < 0xF0 then (6, s)
  else if s.e1mode then (2, s)
  else if value = 0 ∨ value = PS2_KC_OVERRUN then (0x0C, ps2_reset s)
  else if value = PS2_KC_RESEND then
    (if s.lastvalid then (0x10, { s with now_send := s.last_sent }) else (0, s))
  else if value = PS2_KC_ERROR then
    (0x0E, { s with
        bytes_expected := 0,
        ps2busy := false, txmode := false, breakkey := false,
        waitresponse := false, e0mode := false, e1mode := false,
        lastvalid := false, tx_handshake := false, tx_command := false })
  else if value = PS2_KC_KEYBREAK then
    (0, { s with bytes_expected := 1, breakkey := true })
  else if value = PS2_KC_ECHO then
    (if s.lastvalid ∧ s.last_sent ≠ PS2_KC_ECHO then
        (0x14, { s with now_send := PS2_KC_ECHO })
      else (4, s))
  else if value = PS2_KC_BAT then (4, { s with bytes_expected := 0 })
  else if value = PS2_KC_EXTEND1 then
    (0, if ¬ s.e1mode then
          { s with bytes_expected := 7, e1mode := true, breakkey := false }
        else s)
  else if value = PS2_KC_EXTEND then
    (0, { s with bytes_expected := 1, e0mode := true })
  else (6, s)

/-- `send_now` from PS2Keyboard.c, state effects only (the GPIO handshake
that hands the clock to the device has no state in the model). -/
def send_now (command : Nat) (s : PS2State) : PS2State :=
  let s := { s with
      shiftdata := command, now_send := command, bitcount := 1, parity := 0,
      txmode := true, ps2busy := true }
  if ¬ s.tx_handshake ∧ s.tx_command then
    { s with bytes_expected := (s.response_count : Int), waitresponse := true }
  else s

/-- The `do { ... } while (i != _tx_head)` scan inside `send_next`: walk the
transmit ring from `i`, take the first byte as the value to send, count
subsequent `PS2_KEY_IGNORE` placeholders, and stop at the first non-ignore
byte after the value.  Returns (value, response count, new tail). -/
def send_next_scan (s : PS2State) : Nat → Nat → Option Nat → Nat → Nat →
    Option Nat × Nat × Nat
  | fuel, i, val, rc, tail =>
    match fuel with
    | 0 => (val, rc, tail)
    | fuel + 1 =>
      let i := if i + 1 ≥ TX_BUFFER_SIZE then 0 else i + 1
      match val with
      | none =>
        if i ≠ s.tx_head then send_next_scan s fuel i (some (s.tx_buff.getD i 0)) rc i
        else (some (s.tx_buff.getD i 0), rc, i)
      | some v =>
        if s.tx_buff.getD i 0 ≠ PS2_KEY_IGNORE then (some v, rc, tail)
        else if i ≠ s.tx_head then send_next_scan s fuel i (some v) (rc + 1) i
        else (some v, rc + 1, i)

/-- `send_next` from PS2Keyboard.c: start transmitting the next queued
command byte, if any.  Returns the mutated state and the C return code. -/
def send_next (s : PS2State) : PS2State × Int :=
  if s.tx_tail = s.tx_head then (s, -2)
  else
    let s := { s with tx_command := true }
    if s.tx_handshake then (s, -134)
    else if s.ps2busy then (s, -134)
    else
      let s := { s with response_count := 0 }
      let r := send_next_scan s (TX_BUFFER_SIZE + 1) s.tx_tail none 0 s.tx_tail
      let s := { s with tx_tail := r.2.2, response_count := r.2.1 }
      (send_now (r.1.getD 0) s, 1)

/-- `send_bit` from PS2Keyboard.c (the transmit half of the ISR), state
effects only.  The C `case 1` falls through into `case 2 ... 9`. -/
def send_bit (s : PS2State) : PS2State :=
  let s := { s with bitcount := s.bitcount + 1 }
  if 1 ≤ s.bitcount ∧ s.bitcount ≤ 9 then
    let val := s.shiftdata % 2
    { s with parity := (s.parity + val) % 256, shiftdata := s.shiftdata / 2 }
  else if s.bitcount = 10 then s
  else if s.bitcount = 11 then s
  else if s.bitcount = 12 then
    let s :=
      if ¬ (s.now_send = PS2_KC_ECHO ∨ s.now_send = PS2_KC_RESEND) then
        { s with last_sent := s.now_send, lastvalid := true }
      else s
    let s := { s with txmode := false }
    let s :=
      if s.tx_handshake then { s with tx_handshake := false }
      else { s with tx_command := false }
    let s := if ¬ s.waitresponse then (send_next s).1 else s
    { s with bitcount := 0 }
  else { s with bitcount := 0 }

/-- `GPIO0_IRQHandler` from PS2Keyboard.c, for one falling clock edge.
`timedOut` is the watchdog condition `elapsed_ms > 250`; `val` is the data
line level read by `gpioRead(PS2_DataPin)`. -/
def GPIO0_IRQHandler (timedOut : Bool) (val : Bool) (s : PS2State) : PS2State :=
  if s.txmode then send_bit s
  else
    let s := if timedOut then { s with bitcount := 0, shiftdata := 0 } else s
    let s := { s with bitcount := s.bitcount + 1 }
    let bval : Nat := if val then 1 else 0
    if s.bitcount = 1 then { s with parity := 0, ps2busy := true }
    else if 2 ≤ s.bitcount ∧ s.bitcount ≤ 9 then
      { s with
          parity := (s.parity + bval) % 256
          shiftdata := s.shiftdata / 2 + (if val then 128 else 0) }
    else if s.bitcount = 10 then
      let p := s.parity % 2
      if p = bval then { s with parity := 0xFD } else { s with parity := p }
    else if s.bitcount = 11 then
      (if 0xFD ≤ s.parity then
        let s := send_now PS2_KC_RESEND s
        let s := { s with tx_handshake := true }
        { s with bitcount := 0 }
      else
        let dk := decode_key s.shiftdata s
        let ret := dk.1
        let s := dk.2
        let s :=
          if ret &&& 2 ≠ 0 then { s with bytes_expected := s.bytes_expected - 1 }
          else s
        let s :=
          if s.bytes_expected ≤ 0 ∨ ret &&& 4 ≠ 0 then
            let next_head := if s.head + 1 ≥ RX_BUFFER_SIZE then 0 else s.head + 1
            if next_head ≠ s.tail then
              { s with
                  rx_buffer := s.rx_buffer.set next_head (s.shiftdata + 256 * modeByte s)
                  head := next_head }
            else s
          else s
        let s :=
          if ret &&& 16 ≠ 0 then
            let s := send_now s.now_send s
            { s with tx_handshake := true }
          else if s.bytes_expected ≤ 0 then
            let s := { s with
                e0mode := false, e1mode := false, waitresponse := false,
                breakkey := false, bytes_expected := 0, ps2busy := false }
            (send_next s).1
          else s
        { s with bitcount := 0 })
    else { s with bitcount := 0 }

/-- Feed a sequence of falling clock edges (data-line levels) to the ISR,
with the watchdog never firing (edges less than 250 ms apart). -/
def rxFeed (bits : List Bool) (s : PS2State) : PS2State :=
  bits.foldl (fun s b => GPIO0_IRQHandler false b s) s

/-- A concrete driver state with everything cleared: the state left by
`ps2_reset` (as called from `PS2Keyboard_Init`) on empty buffers. -/
def ps2State0 : PS2State :=
  { ps2busy := false, txmode := false, breakkey := false, waitresponse := false,
    e0mode := false, e1mode := false, lastvalid := false,
    rx_buffer := List.replicate RX_BUFFER_SIZE 0, head := 0, tail := 0,
    bytes_expected := 0, bitcount := 0, shiftdata := 0, parity := 0,
    tx_buff := List.replicate TX_BUFFER_SIZE 0, tx_head := 0, tx_tail := 0,
    last_sent := 0, now_send := 0, response_count := 0,
    tx_handshake := false, tx_command := false, keystatus := 0, led_lock := 0 }

/-! ### Application FSM (src/enigma/src/FSM.c) -/

/-- `NUM_ROTORS` from FSM.c. -/
def NUM_ROTORS : Nat := 3

/-- The `(state, rotorIndex)` transition at the top of `FSM_Update`
(FSM.c lines 119-129): inside CONFIG_ROTOR (tag 2, the C enum value of
`CONFIG_ROTOR`) the rotor counter advances first; only when it has reached
the last rotor does the tag advance, via `state++; state %= 3`. -/
def FSM_Update_transition (p : Nat × Nat) : Nat × Nat :=
  if p.1 = 2 ∧ p.2 ≠ NUM_ROTORS - 1 then (p.1, p.2 + 1)
  else ((p.1 + 1) % 3, if p.1 = 2 then 0 else p.2)

/-- Application state: the FSM tag (`ENCRYPT` = 0, `CONFIG_PB` = 1,
`CONFIG_ROTOR` = 2, the C enum values), the rotor-configuration counter, the
stored rotor positions, the plugboard scanner's mapping array, the engine's
plugboard pointer and the engine machine. -/
structure AppState where
  state : Nat
  rotorIndex : Nat
  rotorPos : List Int
  plugb : List Char
  pb : List Char
  machine : Enigma

/-- `FSM_Init` from FSM.c: starts in ENCRYPT with
`EnigmaAPI_Init(3, 2, 1, 1, rotorPos[0], rotorPos[1], rotorPos[2])` on
all-zero rotor positions; both mapping arrays hold their C initializers. -/
def FSM_Init : AppState :=
  { state := 0
    rotorIndex := 0
    rotorPos := [0, 0, 0]
    plugb := identityMapping
    pb := identityMapping
    machine := EnigmaAPI_Init 3 2 1 1 0 0 0 }

/-- `FSM_Update` from FSM.c: the `(state, rotorIndex)` transition followed
by the entry actions of the `switch (state)` — re-entering ENCRYPT installs
the scanner's mapping and re-initializes the engine with rotors 3, 2, 1 and
reflector 1; entering CONFIG_ROTOR latches the rotor's current offset. -/
def FSM_Update (s : AppState) : AppState :=
  let p := FSM_Update_transition (s.state, s.rotorIndex)
  let s := { s with state := p.1, rotorIndex := p.2 }
  if s.state = 0 then
    { s with
        pb := s.plugb
        machine := EnigmaAPI_Init 3 2 1 1 (s.rotorPos.getD 0 0)
          (s.rotorPos.getD 1 0) (s.rotorPos.getD 2 0) }
  else if s.state = 2 then
    { s with
        rotorPos := s.rotorPos.set s.rotorIndex
          (EnigmaAPI_GetRotorValue (s.rotorIndex : Int) s.machine) }
  else s

/-- One observable step of the application: a debounced button press
(`FSM_Update`), an encrypted keystroke (`FSM_Encrypt`, only in ENCRYPT and
only for key codes in A..Z), a plugboard sweep (`FSM_ConfigPB`), or a rotary
tick clamped to 0..25 (`FSM_ConfigRotor`). -/
inductive AppStep : AppState → AppState → Prop
  | button (s : AppState) : AppStep s (FSM_Update s)
  | key (s : AppState) (c : Char) (h0 : s.state = 0) (hc : 'A' ≤ c ∧ c ≤ 'Z') :
      AppStep s { s with machine := (EnigmaAPI_EncryptChar s.pb s.machine c).2 }
  | scan (s : AppState) (reads : Nat → Nat → Bool) (h1 : s.state = 1) :
      AppStep s { s with plugb := PLUGB_Scan reads s.plugb }
  | rotor (s : AppState) (delta : Int) (h2 : s.state = 2) :
      AppStep s { s with rotorPos :=
        (let newPos := s.rotorPos.getD s.rotorIndex 0 + delta
         if 0 ≤ newPos ∧ newPos ≤ 25 then s.rotorPos.set s.rotorIndex newPos
         else s.rotorPos) }

/-- States reachable from boot (`FSM_Init`) by any sequence of steps. -/
def Reachable (s : AppState) : Prop :=
  Relation.ReflTransGen AppStep FSM_Init s

/-- The engine configuration claim C9 asserts to be invariant: rotor slots
fast→slow hold rotors III, II, I (table rows 2, 1, 0) and the reflector is
table row 1 (reflector B). -/
def engineFixed (m : Enigma) : Prop :=
  m.r0.cipher = tableAt rotor_ciphers 2 ∧
  m.r0.turnover = tableAt rotor_turnovers 2 ∧
  m.r0.notch = tableAt rotor_notches 2 ∧
  m.r1.cipher = tableAt rotor_ciphers 1 ∧
  m.r1.turnover = tableAt rotor_turnovers 1 ∧
  m.r1.notch = tableAt rotor_notches 1 ∧
  m.r2.cipher = tableAt rotor_ciphers 0 ∧
  m.r2.turnover = tableAt rotor_turnovers 0 ∧
  m.r2.notch = tableAt rotor_notches 0 ∧
  m.reflector = tableAt reflectors 1

/-!
## Theorems

First, facts about the fixed tables, established by finite computation.
-/

set_option maxRecDepth 10000 in
lemma mem_alpha_facts : ∀ c ∈ alpha,
    toupper c = c ∧ 0 ≤ str_index alpha c ∧ str_index alpha c < 26 ∧
    charAt alpha (str_index alpha c) = c := by decide

set_option maxRecDepth 10000 in
lemma range_alpha_facts : ∀ a ∈ List.range 26,
    charAt alpha ((a : Nat) : Int) ∈ alpha ∧
    str_index alpha (charAt alpha ((a : Nat) : Int)) = ((a : Nat) : Int) := by decide

lemma charAt_alpha_facts {x : Int} (h0 : 0 ≤ x) (h1 : x < 26) :
    charAt alpha x ∈ alpha ∧ str_index alpha (charAt alpha x) = x := by
  have h := range_alpha_facts x.toNat (by rw [List.mem_range]; omega)
  rwa [Int.toNat_of_nonneg h0] at h

set_option maxRecDepth 100000 in
lemma reflector_table_facts : ∀ ref ∈ reflectors, ∀ a ∈ List.range 26,
    0 ≤ str_index alpha (charAt ref ((a : Nat) : Int)) ∧
    str_index alpha (charAt ref ((a : Nat) : Int)) < 26 ∧
    str_index alpha (charAt ref ((a : Nat) : Int)) ≠ ((a : Nat) : Int) ∧
    str_index alpha (charAt ref (str_index alpha (charAt ref ((a : Nat) : Int)))) =
      ((a : Nat) : Int) := by decide

lemma reflector_facts_int {ref : List Char} (hr : ref ∈ reflectors) {a : Int}
    (h0 : 0 ≤ a) (h1 : a < 26) :
    0 ≤ str_index alpha (charAt ref a) ∧ str_index alpha (charAt ref a) < 26 ∧
    str_index alpha (charAt ref a) ≠ a ∧
    str_index alpha (charAt ref (str_index alpha (charAt ref a))) = a := by
  have h := reflector_table_facts ref hr a.toNat (by rw [List.mem_range]; omega)
  rwa [Int.toNat_of_nonneg h0] at h

set_option maxRecDepth 100000 in
lemma cipher_table_facts : ∀ c ∈ rotor_ciphers, ∀ a ∈ List.range 26,
    (0 ≤ str_index alpha (charAt c ((a : Nat) : Int)) ∧
      str_index alpha (charAt c ((a : Nat) : Int)) < 26 ∧
      str_index c (charAt alpha (str_index alpha (charAt c ((a : Nat) : Int)))) =
        ((a : Nat) : Int)) ∧
    (0 ≤ str_index c (charAt alpha ((a : Nat) : Int)) ∧
      str_index c (charAt alpha ((a : Nat) : Int)) < 26 ∧
      str_index alpha (charAt c (str_index c (charAt alpha ((a : Nat) : Int)))) =
        ((a : Nat) : Int)) := by decide

lemma cipher_facts_int {c : List Char} (hc : c ∈ rotor_ciphers) {a : Int}
    (h0 : 0 ≤ a) (h1 : a < 26) :
    (0 ≤ str_index alpha (charAt c a) ∧ str_index alpha (charAt c a) < 26 ∧
      str_index c (charAt alpha (str_index alpha (charAt c a))) = a) ∧
    (0 ≤ str_index c (charAt alpha a) ∧ str_index c (charAt alpha a) < 26 ∧
      str_index alpha (charAt c (str_index c (charAt alpha a))) = a) := by
  have h := cipher_table_facts c hc a.toNat (by rw [List.mem_range]; omega)
  rwa [Int.toNat_of_nonneg h0] at h

lemma tmod26 {a : Int} (h : 0 ≤ a) : a.tmod 26 = a % 26 :=
  Int.tmod_eq_emod h (by norm_num)

lemma rotor_forward_eq (r : Rotor) (x : Int) :
    rotor_forward r x =
      (26 + str_index alpha (charAt r.cipher ((x + r.offset).tmod 26)) -
        r.offset).tmod 26 := rfl

lemma rotor_reverse_eq (r : Rotor) (x : Int) :
    rotor_reverse r x =
      (26 + str_index r.cipher (charAt alpha ((x + r.offset).tmod 26)) -
        r.offset).tmod 26 := rfl

lemma rotor_forward_spec (r : Rotor) (hc : r.cipher ∈ rotor_ciphers)
    (ho : 0 ≤ r.offset) (ho' : r.offset < 26) (x : Int) (hx : 0 ≤ x) (hx' : x < 26) :
    0 ≤ rotor_forward r x ∧ rotor_forward r x < 26 ∧
    rotor_reverse r (rotor_forward r x) = x := by
  rw [rotor_forward_eq, tmod26 (show (0 : Int) ≤ x + r.offset by omega)]
  have ha0 : 0 ≤ (x + r.offset) % 26 := Int.emod_nonneg _ (by norm_num)
  have ha1 : (x + r.offset) % 26 < 26 := Int.emod_lt_of_pos _ (by norm_num)
  set a := (x + r.offset) % 26 with hadef
  obtain ⟨⟨hb0, hb1, hbinv⟩, -⟩ := cipher_facts_int hc ha0 ha1
  set b := str_index alpha (charAt r.cipher a) with hbdef
  rw [tmod26 (show (0 : Int) ≤ 26 + b - r.offset by omega)]
  have hf0 : 0 ≤ (26 + b - r.offset) % 26 := Int.emod_nonneg _ (by norm_num)
  have hf1 : (26 + b - r.offset) % 26 < 26 := Int.emod_lt_of_pos _ (by norm_num)
  refine ⟨hf0, hf1, ?_⟩
  rw [rotor_reverse_eq,
    tmod26 (show (0 : Int) ≤ (26 + b - r.offset) % 26 + r.offset by omega)]
  have h1 : ((26 + b - r.offset) % 26 + r.offset) % 26 = b := by omega
  rw [h1, hbinv, tmod26 (show (0 : Int) ≤ 26 + a - r.offset by omega)]
  omega

lemma rotor_reverse_spec (r : Rotor) (hc : r.cipher ∈ rotor_ciphers)
    (ho : 0 ≤ r.offset) (ho' : r.offset < 26) (x : Int) (hx : 0 ≤ x) (hx' : x < 26) :
    0 ≤ rotor_reverse r x ∧ rotor_reverse r x < 26 ∧
    rotor_forward r (rotor_reverse r x) = x := by
  rw [rotor_reverse_eq, tmod26 (show (0 : Int) ≤ x + r.offset by omega)]
  have ha0 : 0 ≤ (x + r.offset) % 26 := Int.emod_nonneg _ (by norm_num)
  have ha1 : (x + r.offset) % 26 < 26 := Int.emod_lt_of_pos _ (by norm_num)
  set a := (x + r.offset) % 26 with hadef
  obtain ⟨-, hb0, hb1, hbinv⟩ := cipher_facts_int hc ha0 ha1
  set b := str_index r.cipher (charAt alpha a) with hbdef
  rw [tmod26 (show (0 : Int) ≤ 26 + b - r.offset by omega)]
  have hf0 : 0 ≤ (26 + b - r.offset) % 26 := Int.emod_nonneg _ (by norm_num)
  have hf1 : (26 + b - r.offset) % 26 < 26 := Int.emod_lt_of_pos _ (by norm_num)
  refine ⟨hf0, hf1, ?_⟩
  rw [rotor_forward_eq,
    tmod26 (show (0 : Int) ≤ (26 + b - r.offset) % 26 + r.offset by omega)]
  have h1 : ((26 + b - r.offset) % 26 + r.offset) % 26 = b := by omega
  rw [h1, hbinv, tmod26 (show (0 : Int) ≤ 26 + a - r.offset by omega)]
  omega

/-! ### State validity is preserved by stepping -/

lemma rotor_cycle_offset (r : Rotor) : (rotor_cycle r).offset = (r.offset + 1).tmod 26 := rfl

lemma rotor_cycle_cipher (r : Rotor) : (rotor_cycle r).cipher = r.cipher := rfl

lemma validRotor_cycle {r : Rotor} (h : validRotor r) : validRotor (rotor_cycle r) := by
  obtain ⟨hc, h0, h1⟩ := h
  refine ⟨hc, ?_, ?_⟩ <;> rw [rotor_cycle_offset, tmod26 (by omega)]
  · exact Int.emod_nonneg _ (by norm_num)
  · exact Int.emod_lt_of_pos _ (by norm_num)

lemma validRotor_clear {r : Rotor} (b : Bool) (h : validRotor r) :
    validRotor { r with turnnext := b } := h

lemma validEnigma_step {m : Enigma} (h : validEnigma m) : validEnigma (enigma_step m) := by
  obtain ⟨h0, h1, h2, hr⟩ := h
  simp only [enigma_step]
  split_ifs <;>
    exact ⟨validRotor_clear _ (validRotor_cycle h0), by
        first
          | exact validRotor_clear _ (validRotor_cycle (validRotor_cycle h1))
          | exact validRotor_cycle (validRotor_cycle h1)
          | exact validRotor_clear _ (validRotor_cycle h1)
          | exact validRotor_cycle h1
          | exact validRotor_clear _ h1, by
        first
          | exact validRotor_cycle h2
          | exact h2, hr⟩

lemma enigma_step_reflector (m : Enigma) : (enigma_step m).reflector = m.reflector := by
  simp only [enigma_step]
  split_ifs <;> rfl

/-! ### The permutation pipeline of one keystroke -/

lemma EnigmaAPI_EncryptChar_fst (pb : List Char) (m : Enigma) (c : Char) :
    (EnigmaAPI_EncryptChar pb m c).1 =
      pbApply pb (charAt alpha (rev3 (enigma_step m)
        (reflect (enigma_step m)
          (fwd3 (enigma_step m) (str_index alpha (pbApply pb (toupper c))))))) := rfl

lemma EnigmaAPI_EncryptChar_snd (pb : List Char) (m : Enigma) (c : Char) :
    (EnigmaAPI_EncryptChar pb m c).2 = enigma_step m := rfl

lemma fwd3_spec {m : Enigma} (hm : validEnigma m) {x : Int} (hx0 : 0 ≤ x) (hx1 : x < 26) :
    0 ≤ fwd3 m x ∧ fwd3 m x < 26 ∧ rev3 m (fwd3 m x) = x := by
  obtain ⟨⟨hc0, ho0, ho0'⟩, ⟨hc1, ho1, ho1'⟩, ⟨hc2, ho2, ho2'⟩, -⟩ := hm
  obtain ⟨a0, a1, a2⟩ := rotor_forward_spec m.r0 hc0 ho0 ho0' x hx0 hx1
  obtain ⟨b0, b1, b2⟩ := rotor_forward_spec m.r1 hc1 ho1 ho1' _ a0 a1
  obtain ⟨d0, d1, d2⟩ := rotor_forward_spec m.r2 hc2 ho2 ho2' _ b0 b1
  refine ⟨d0, d1, ?_⟩
  show rotor_reverse m.r0 (rotor_reverse m.r1 (rotor_reverse m.r2
    (rotor_forward m.r2 (rotor_forward m.r1 (rotor_forward m.r0 x))))) = x
  rw [d2, b2, a2]

lemma rev3_spec {m : Enigma} (hm : validEnigma m) {x : Int} (hx0 : 0 ≤ x) (hx1 : x < 26) :
    0 ≤ rev3 m x ∧ rev3 m x < 26 ∧ fwd3 m (rev3 m x) = x := by
  obtain ⟨⟨hc0, ho0, ho0'⟩, ⟨hc1, ho1, ho1'⟩, ⟨hc2, ho2, ho2'⟩, -⟩ := hm
  obtain ⟨a0, a1, a2⟩ := rotor_reverse_spec m.r2 hc2 ho2 ho2' x hx0 hx1
  obtain ⟨b0, b1, b2⟩ := rotor_reverse_spec m.r1 hc1 ho1 ho1' _ a0 a1
  obtain ⟨d0, d1, d2⟩ := rotor_reverse_spec m.r0 hc0 ho0 ho0' _ b0 b1
  refine ⟨d0, d1, ?_⟩
  show rotor_forward m.r2 (rotor_forward m.r1 (rotor_forward m.r0
    (rotor_reverse m.r0 (rotor_reverse m.r1 (rotor_reverse m.r2 x))))) = x
  rw [d2, b2, a2]

lemma reflect_spec {m : Enigma} (hr : m.reflector ∈ reflectors) {x : Int}
    (hx0 : 0 ≤ x) (hx1 : x < 26) :
    0 ≤ reflect m x ∧ reflect m x < 26 ∧ reflect m x ≠ x ∧
    reflect m (reflect m x) = x := by
  have h := reflector_facts_int hr hx0 hx1
  exact h

set_option maxRecDepth 100000 in
/-- Claim C1: with rotors III, II, I fast→slow, reflector B, offsets 0,0,0
and the identity plugboard, encrypting 'A','A','A','A','A' in sequence via
`EnigmaAPI_EncryptChar` gives exactly 'B','D','Z','G','O'. -/
theorem claim_C1 :
    (encryptList identityMapping (EnigmaAPI_Init 3 2 1 1 0 0 0)
      ['A', 'A', 'A', 'A', 'A']).1 = ['B', 'D', 'Z', 'G', 'O'] := by decide

/-- Claim C2: for every machine state whose plugboard is an involution on
A..Z (and that the engine's own API can construct: table rotors, offsets in
range, table reflector) and every letter in A..Z, encrypting from a frozen
state twice returns the original letter. -/
theorem claim_C2 (pb : List Char) (m : Enigma) (c : Char)
    (hpb : pbInvolution pb) (hm : validEnigma m) (hc : c ∈ alpha) :
    (EnigmaAPI_EncryptChar pb m (EnigmaAPI_EncryptChar pb m c).1).1 = c := by
  have hm' := validEnigma_step hm
  have hrefl' : (enigma_step m).reflector ∈ reflectors := hm'.2.2.2
  obtain ⟨htc, -, -, -⟩ := mem_alpha_facts c hc
  obtain ⟨hpmem, hpinv⟩ := hpb c hc
  obtain ⟨-, hx0, hx1, hxa⟩ := mem_alpha_facts _ hpmem
  obtain ⟨hf0, hf1, hfr⟩ := fwd3_spec hm' hx0 hx1
  obtain ⟨hg0, hg1, -, hginv⟩ := reflect_spec hrefl' hf0 hf1
  obtain ⟨hy0, hy1, hyf⟩ := rev3_spec hm' hg0 hg1
  obtain ⟨hamem, haidx⟩ := charAt_alpha_facts hy0 hy1
  obtain ⟨houtmem, houtinv⟩ := hpb _ hamem
  obtain ⟨htout, -, -, -⟩ := mem_alpha_facts _ houtmem
  rw [EnigmaAPI_EncryptChar_fst, EnigmaAPI_EncryptChar_fst, htc, htout, houtinv,
    haidx, hyf, hginv, hfr, hxa, hpinv]

/-- Claim C4: from every machine state whose plugboard is an involution on
A..Z, no letter ever encrypts to itself (the reflector property). -/
theorem claim_C4 (pb : List Char) (m : Enigma) (c : Char)
    (hpb : pbInvolution pb) (hm : validEnigma m) (hc : c ∈ alpha) :
    (EnigmaAPI_EncryptChar pb m c).1 ≠ c := by
  have hm' := validEnigma_step hm
  have hrefl' : (enigma_step m).reflector ∈ reflectors := hm'.2.2.2
  obtain ⟨htc, -, -, -⟩ := mem_alpha_facts c hc
  obtain ⟨hpmem, hpinv⟩ := hpb c hc
  obtain ⟨-, hx0, hx1, hxa⟩ := mem_alpha_facts _ hpmem
  obtain ⟨hf0, hf1, hfr⟩ := fwd3_spec hm' hx0 hx1
  obtain ⟨hg0, hg1, hgne, -⟩ := reflect_spec hrefl' hf0 hf1
  obtain ⟨hy0, hy1, hyf⟩ := rev3_spec hm' hg0 hg1
  obtain ⟨hamem, haidx⟩ := charAt_alpha_facts hy0 hy1
  rw [EnigmaAPI_EncryptChar_fst, htc]
  intro hout
  have h2 := (hpb _ hamem).2
  rw [hout] at h2
  have h3 := congrArg (str_index alpha) h2.symm
  rw [haidx] at h3
  have h4 := congrArg (fwd3 (enigma_step m)) h3
  rw [hyf] at h4
  exact hgne h4

/-- Witness for claim C2 at a concrete state and letter. -/
theorem claim_C2_witness :
    (EnigmaAPI_EncryptChar identityMapping (EnigmaAPI_Init 3 2 1 1 0 0 0)
      (EnigmaAPI_EncryptChar identityMapping (EnigmaAPI_Init 3 2 1 1 0 0 0) 'A').1).1
      = 'A' :=
  claim_C2 _ _ _ (by decide) (by decide) (by decide)

/-- Witness for claim C4 at a concrete state and letter. -/
theorem claim_C4_witness :
    (EnigmaAPI_EncryptChar identityMapping (EnigmaAPI_Init 3 2 1 1 0 0 0) 'A').1 ≠ 'A' :=
  claim_C4 _ _ _ (by decide) (by decide) (by decide)

/-! ### Claim C3: the stepping algorithm matches the spec's description -/

lemma str_index_nonneg {s : List Char} {c : Char} : 0 ≤ str_index s c ↔ c ∈ s := by
  unfold str_index
  cases h : s.findIdx? (· = c) with
  | none =>
    constructor
    · intro h0; norm_num at h0
    · intro hmem
      rw [List.findIdx?_eq_none_iff] at h
      have := h c hmem
      simp at this
  | some i =>
    constructor
    · intro _
      by_contra hmem
      have hnone : s.findIdx? (· = c) = none := by
        rw [List.findIdx?_eq_none_iff]
        intro x hx
        simp only [decide_eq_false_iff_not]
        intro he
        exact hmem (he ▸ hx)
      rw [h] at hnone
      exact Option.some_ne_none i hnone
    · intro _
      exact Int.natCast_nonneg i

lemma if_then_true_else_false {p : Prop} [Decidable p] :
    (if p then true else false) = decide p := by
  by_cases h : p <;> simp [h]

lemma rotor_cycle_eq (r : Rotor) (h : 0 ≤ r.offset) :
    rotor_cycle r =
      { r with
          offset := (r.offset + 1) % 26
          turnnext :=
            if charAt alpha ((r.offset + 1) % 26) ∈ r.turnover then true
            else r.turnnext } := by
  have hR : ROTATE = (26 : Int) := rfl
  simp only [rotor_cycle, hR, tmod26 (show (0 : Int) ≤ r.offset + 1 by omega),
    str_index_nonneg]

/-- Claim C3: on a call to `EnigmaAPI_EncryptChar` from a state the engine
can actually be in (offsets non-negative; R1's `step_next` clear, as it is
after `EnigmaAPI_Init` and after every previous call), the stepping prefix
behaves exactly as the specification describes it: R1 advances by 1 mod 26
with its flag set exactly when the new offset is a turnover; R2 additionally
advances when its current offset is a notch (double-step); then set flags
are cleared while advancing the next rotor. -/
theorem claim_C3 (m : Enigma)
    (h0 : 0 ≤ m.r0.offset) (h1 : 0 ≤ m.r1.offset) (h2 : 0 ≤ m.r2.offset)
    (ht : m.r0.turnnext = false) :
    enigma_step m = spec_step m := by
  have e0 := rotor_cycle_eq m.r0 h0
  have e1 := rotor_cycle_eq m.r1 h1
  have e2 := rotor_cycle_eq m.r2 h2
  have h1' : (0 : Int) ≤ (m.r1.offset + 1) % 26 := Int.emod_nonneg _ (by norm_num)
  simp only [enigma_step, spec_step, e0, e1, e2, ht, if_then_true_else_false,
    str_index_nonneg]
  by_cases hn : charAt alpha m.r1.offset ∈ m.r1.notch
  · simp only [hn, if_true]
    rw [rotor_cycle_eq _ (by simpa using h1')]
  · simp only [hn, if_false]
    rw [rotor_cycle_eq _ h1]

/-- Witness for claim C3 at a concrete machine state. -/
theorem claim_C3_witness :
    enigma_step (EnigmaAPI_Init 3 2 1 1 0 0 0) = spec_step (EnigmaAPI_Init 3 2 1 1 0 0 0) :=
  claim_C3 _ (by decide) (by decide) (by decide) (by decide)

/-! ### Claim C5: plugboard installation performs no validation -/

/-- Counterexample to claim C5: `EnigmaAPI_SetPlugboardMapping` is a bare
pointer assignment; installing the non-involution A→B, B→C, C→A succeeds and
replaces the engine's plugboard, so a non-involution is installed and the
rejected-call guarantee of the claim is false. -/
theorem claim_C5_counterexample :
    ¬ pbInvolution badMapping ∧
    (EnigmaAPI_SetPlugboardMapping badMapping apiState0).plugboardMappings
      = badMapping ∧
    (EnigmaAPI_SetPlugboardMapping badMapping apiState0).plugboardMappings
      ≠ apiState0.plugboardMappings := by
  exact ⟨by decide, rfl, by decide⟩

/-- Claim C5 as amended: `EnigmaAPI_SetPlugboardMapping` installs any given
mapping unconditionally — no involution check, no error path — and leaves
the rest of the engine state (the machine) unchanged. -/
theorem claim_C5 (mapping : List Char) (s : ApiState) :
    (EnigmaAPI_SetPlugboardMapping mapping s).plugboardMappings = mapping ∧
    (EnigmaAPI_SetPlugboardMapping mapping s).machine = s.machine :=
  ⟨rfl, rfl⟩

/-! ### Claim C8: the FSM six-step cycle -/

/-- Claim C8: `FSM_Update`'s effect on the pair (state tag, rotor index) is
`FSM_Update_transition` for every application state (the entry actions touch
only the other fields), and that transition drives the six-step cycle
ENCRYPT → CONFIG_PB → CONFIG_ROTOR[0] → CONFIG_ROTOR[1] → CONFIG_ROTOR[2] →
ENCRYPT, the rotor index advancing before the state tag changes.  The five
listed configurations are exactly those reachable from the initial (0, 0),
and their successors are exactly the cycle. -/
theorem claim_C8 :
    (∀ s : AppState, ((FSM_Update s).state, (FSM_Update s).rotorIndex) =
        FSM_Update_transition (s.state, s.rotorIndex)) ∧
    FSM_Update_transition (0, 0) = (1, 0) ∧
    FSM_Update_transition (1, 0) = (2, 0) ∧
    FSM_Update_transition (2, 0) = (2, 1) ∧
    FSM_Update_transition (2, 1) = (2, 2) ∧
    FSM_Update_transition (2, 2) = (0, 0) := by
  refine ⟨?_, by decide, by decide, by decide, by decide, by decide⟩
  intro s
  simp only [FSM_Update]
  split_ifs <;> rfl

/-! ### Claim C10: PLUGB_GetMapping -/

lemma char_range_toNat {c : Char} (h : 'A' ≤ c ∧ c ≤ 'Z') :
    65 ≤ c.toNat ∧ c.toNat ≤ 90 := by
  obtain ⟨h1, h2⟩ := h
  exact ⟨h1, h2⟩

/-- Claim C10: `PLUGB_GetMapping` returns the null character for every input
outside 'A'..'Z', and for inputs in 'A'..'Z' it returns exactly the element
stored at index `input - 'A'` of the mapping array.  The C function only
reads `plugboardMappings`; in the embedding it is a pure function of the
array, so it modifies no state. -/
theorem claim_C10 (pb : List Char) (c : Char) (hlen : pb.length = 26) :
    (¬ ('A' ≤ c ∧ c ≤ 'Z') → PLUGB_GetMapping pb c = Char.ofNat 0) ∧
    (('A' ≤ c ∧ c ≤ 'Z') →
      pb.get? (c.toNat - 'A'.toNat) = some (PLUGB_GetMapping pb c)) := by
  constructor
  · intro h
    simp [PLUGB_GetMapping, h]
  · intro h
    obtain ⟨hlo, hhi⟩ := char_range_toNat h
    have hA : 'A'.toNat = 65 := rfl
    simp only [PLUGB_GetMapping, if_pos h]
    rw [charAt, if_pos (by omega : (0 : Int) ≤ (c.toNat : Int) - ('A'.toNat : Int))]
    have htn : ((c.toNat : Int) - ('A'.toNat : Int)).toNat = c.toNat - 'A'.toNat := by
      omega
    rw [htn]
    cases hget : pb.get? (c.toNat - 'A'.toNat) with
    | none =>
      rw [List.get?_eq_none] at hget
      omega
    | some a =>
      rw [List.getD, hget]
      rfl

/-- Witness for claim C10: a non-letter input gives the null character; an
in-range input gives the stored element. -/
theorem claim_C10_witness :
    PLUGB_GetMapping identityMapping 'q' = Char.ofNat 0 ∧
    identityMapping.get? ('B'.toNat - 'A'.toNat)
      = some (PLUGB_GetMapping identityMapping 'B') := by
  constructor
  · exact (claim_C10 identityMapping 'q' (by decide)).1 (by decide)
  · exact (claim_C10 identityMapping 'B' (by decide)).2 (by decide)

/-! ### Claim C6: the scanner result under consistent and inconsistent reads -/

lemma getD_set_self (l : List Char) (n : Nat) (v d : Char) (h : n < l.length) :
    (l.set n v).getD n d = v := by
  simp [List.getD_eq_getElem?_getD, List.getElem?_set_self', List.getElem?_eq_getElem h]

lemma getD_set_other (l : List Char) {n t : Nat} (v d : Char) (h : n ≠ t) :
    (l.set n v).getD t d = l.getD t d := by
  simp [List.getD_eq_getElem?_getD, List.getElem?_set_ne h]

lemma scanInner_matching (reads : Nat → Nat → Bool) (m : Nat → Nat) (i : Nat)
    (hr : ∀ j, reads i j = decide (m i = j ∧ i ≠ j)) (hmi : m i < 26) :
    ∀ fuel j pb, 26 ≤ j + fuel →
      scanInner reads i fuel j pb =
        if m i ≠ i ∧ j ≤ m i then
          (pb.set i (Char.ofNat ('A'.toNat + m i))).set (m i) (Char.ofNat ('A'.toNat + i))
        else if j < 26 ∧ (j ≠ i ∨ j + 1 < 26) then
          pb.set i (Char.ofNat ('A'.toNat + i))
        else pb := by
  intro fuel
  induction fuel with
  | zero =>
    intro j pb hj
    rw [scanInner, if_neg (by omega), if_neg (by omega)]
  | succ fuel ih =>
    intro j pb hj
    by_cases hj26 : j < 26
    · by_cases hij : i ≠ j
      · rw [scanInner, if_pos hj26, if_pos hij, hr j]
        by_cases hm : m i = j
        · have hd : decide (m i = j ∧ i ≠ j) = true := by simp [hm, hij]
          rw [hd, if_pos rfl, if_pos (show m i ≠ i ∧ j ≤ m i by omega), hm]
        · have hd : decide (m i = j ∧ i ≠ j) = false := by simp [hm]
          rw [hd, if_neg (by simp), ih (j + 1) _ (by omega)]
          by_cases hA : m i ≠ i ∧ j + 1 ≤ m i
          · rw [if_pos hA, if_pos (show m i ≠ i ∧ j ≤ m i by omega), List.set_set]
          · rw [if_neg hA, if_neg (show ¬(m i ≠ i ∧ j ≤ m i) by omega)]
            by_cases hB : j + 1 < 26 ∧ (j + 1 ≠ i ∨ j + 1 + 1 < 26)
            · rw [if_pos hB, if_pos (show j < 26 ∧ (j ≠ i ∨ j + 1 < 26) by omega),
                List.set_set]
            · rw [if_neg hB, if_pos (show j < 26 ∧ (j ≠ i ∨ j + 1 < 26) by omega)]
      · rw [scanInner, if_pos hj26, if_neg hij, ih (j + 1) pb (by omega)]
        by_cases hA : m i ≠ i ∧ j + 1 ≤ m i
        · rw [if_pos hA, if_pos (show m i ≠ i ∧ j ≤ m i by omega)]
        · rw [if_neg hA, if_neg (show ¬(m i ≠ i ∧ j ≤ m i) by omega)]
          by_cases hB : j + 1 < 26 ∧ (j + 1 ≠ i ∨ j + 1 + 1 < 26)
          · rw [if_pos hB, if_pos (show j < 26 ∧ (j ≠ i ∨ j + 1 < 26) by omega)]
          · rw [if_neg hB, if_neg (show ¬(j < 26 ∧ (j ≠ i ∨ j + 1 < 26)) by omega)]
    · rw [scanInner, if_neg hj26, if_neg (by omega), if_neg (by omega)]

lemma scanOuter_matching (reads : Nat → Nat → Bool) (m : Nat → Nat)
    (hm : ∀ i, i < 26 → m i < 26 ∧ m (m i) = i)
    (hr : ∀ i j, reads i j = decide (m i = j ∧ i ≠ j)) :
    ∀ fuel k pb, 26 ≤ k + fuel → pb.length = 26 →
      ∀ t, t < 26 →
        (scanOuter reads fuel k pb).getD t '?' =
          if k ≤ t ∨ k ≤ m t then Char.ofNat ('A'.toNat + m t) else pb.getD t '?' := by
  intro fuel
  induction fuel with
  | zero =>
    intro k pb hk hlen t ht
    rw [scanOuter, if_neg (by have := (hm t ht).1; omega)]
  | succ fuel ih =>
    intro k pb hk hlen t ht
    by_cases hk26 : k < 26
    · rw [scanOuter, if_pos hk26]
      have hinner := scanInner_matching reads m k (hr k) (hm k hk26).1 26 0 pb (by omega)
      have hlen' : (scanInner reads k 26 0 pb).length = 26 := by
        rw [hinner]; split_ifs <;> simp [hlen]
      rw [ih (k + 1) _ (by omega) hlen' t ht]
      by_cases hup : k + 1 ≤ t ∨ k + 1 ≤ m t
      · rw [if_pos hup, if_pos (by omega)]
      · rw [if_neg hup]
        by_cases htk : t = k
        · rw [if_pos (by omega)]
          subst htk
          rw [hinner]
          by_cases hmk : m t = t
          · rw [if_neg (by omega), if_pos (by omega),
              getD_set_self _ _ _ _ (by rw [hlen]; omega), hmk]
          · rw [if_pos ⟨by omega, by omega⟩,
              getD_set_other _ _ _ (show m t ≠ t from by omega),
              getD_set_self _ _ _ _ (by rw [hlen]; omega)]
        · by_cases hmtk : m t = k
          · rw [if_pos (Or.inr (by omega))]
            have hmk_t : m k = t := by
              have h2 := (hm t ht).2
              rw [hmtk] at h2
              exact h2
            rw [hinner, if_pos ⟨by omega, by omega⟩, hmk_t,
              getD_set_self _ _ _ _ (by simp [hlen]; omega), ← hmtk]
          · rw [if_neg (by omega)]
            have hmk_ne : m k ≠ t := by
              intro he
              have h2 := (hm k hk26).2
              rw [he] at h2
              exact hmtk h2
            rw [hinner]
            split_ifs with hA hB
            · rw [getD_set_other _ _ _ hmk_ne,
                getD_set_other _ _ _ (show k ≠ t from by omega)]
            · rw [getD_set_other _ _ _ (show k ≠ t from by omega)]
            · rfl
    · rw [scanOuter, if_neg hk26, if_neg (by have := (hm t ht).1; omega)]

lemma PLUGB_Scan_matching (reads : Nat → Nat → Bool) (m : Nat → Nat)
    (pb : List Char) (hm : ∀ i, i < 26 → m i < 26 ∧ m (m i) = i)
    (hr : ∀ i j, reads i j = decide (m i = j ∧ i ≠ j))
    (hlen : pb.length = 26) (t : Nat) (ht : t < 26) :
    (PLUGB_Scan reads pb).getD t '?' = Char.ofNat ('A'.toNat + m t) := by
  rw [PLUGB_Scan, scanOuter_matching reads m hm hr 26 0 pb (by omega) hlen t ht,
    if_pos (by omega)]

set_option maxRecDepth 10000 in
lemma chr_add_facts : ∀ j ∈ List.range 26,
    (Char.ofNat ('A'.toNat + j)).toNat = 'A'.toNat + j := by decide

set_option maxRecDepth 10000 in
lemma alpha_toNat_facts : ∀ c ∈ alpha,
    65 ≤ c.toNat ∧ c.toNat ≤ 90 ∧ Char.ofNat c.toNat = c := by decide

set_option maxRecDepth 100000 in
/-- Counterexample to claim C6: there is a sequence of pin-read results (a
faulty one: pin 1 high while pin 0 is driven, then pin 2 high while pin 1 is
driven) for which the mapping left by `PLUGB_Scan` is not an involution:
it maps A→B, B→C, C→C. -/
theorem claim_C6_counterexample :
    ¬ (∀ c ∈ alpha, pbApply (PLUGB_Scan readsCE identityMapping)
        (pbApply (PLUGB_Scan readsCE identityMapping) c) = c) := by decide

/-- Claim C6 as amended: when the pin reads are induced by an actual wiring
(a symmetric partial matching of the pins: `m` is an involution on 0..25 and
pin `j` reads high during sweep `i` exactly when `m` pairs `i` with `j`),
the mapping left by `PLUGB_Scan` is an involution on A..Z.  For arbitrary
(electrically inconsistent) read sequences this can fail
(`claim_C6_counterexample`). -/
theorem claim_C6 (reads : Nat → Nat → Bool) (m : Nat → Nat) (pb : List Char)
    (hm : ∀ i, i < 26 → m i < 26 ∧ m (m i) = i)
    (hr : ∀ i j, reads i j = decide (m i = j ∧ i ≠ j))
    (hlen : pb.length = 26) :
    ∀ c ∈ alpha, pbApply (PLUGB_Scan reads pb) (pbApply (PLUGB_Scan reads pb) c) = c := by
  intro c hc
  obtain ⟨hlo, hhi, hchr⟩ := alpha_toNat_facts c hc
  have hA : 'A'.toNat = 65 := rfl
  have hk26 : c.toNat - 65 < 26 := by omega
  have happ : ∀ (P : List Char) (d : Char), 65 ≤ d.toNat →
      pbApply P d = P.getD (d.toNat - 65) '?' := by
    intro P d hd
    rw [pbApply, charAt, if_pos (by omega)]
    have : ((d.toNat : Int) - ('A'.toNat : Int)).toNat = d.toNat - 65 := by omega
    rw [this]
  rw [happ _ c (by omega), PLUGB_Scan_matching reads m pb hm hr hlen _ hk26]
  have hm1 : m (c.toNat - 65) < 26 := (hm _ hk26).1
  have hchr1 : (Char.ofNat ('A'.toNat + m (c.toNat - 65))).toNat =
      'A'.toNat + m (c.toNat - 65) := chr_add_facts _ (by rw [List.mem_range]; omega)
  rw [happ _ _ (by omega), hchr1]
  have hidx : 'A'.toNat + m (c.toNat - 65) - 65 = m (c.toNat - 65) := by omega
  rw [hidx, PLUGB_Scan_matching reads m pb hm hr hlen _ hm1, (hm _ hk26).2]
  have : 'A'.toNat + (c.toNat - 65) = c.toNat := by omega
  rw [this, hchr]

/-- Witness for claim C6: a single A↔B patch cable. -/
theorem claim_C6_witness :
    pbApply (PLUGB_Scan (fun i j => decide (swapAB i = j ∧ i ≠ j)) identityMapping)
      (pbApply (PLUGB_Scan (fun i j => decide (swapAB i = j ∧ i ≠ j)) identityMapping) 'A')
      = 'A' :=
  claim_C6 _ swapAB identityMapping (by decide) (fun i j => rfl) (by decide) 'A' (by decide)

/-! ### Claim C7: a parity-failing frame is discarded and RESEND is sent -/

lemma handler_start (s : PS2State) (b : Bool)
    (htx : s.txmode = false) (h0 : s.bitcount = 0) :
    GPIO0_IRQHandler false b s = { s with bitcount := 1, parity := 0, ps2busy := true } := by
  simp only [GPIO0_IRQHandler, htx, h0, Bool.false_eq_true, if_false]
  norm_num

lemma handler_data (s : PS2State) (b : Bool)
    (htx : s.txmode = false) (h2 : 1 ≤ s.bitcount) (h9 : s.bitcount + 1 ≤ 9)
    (hp : s.parity < 255) :
    GPIO0_IRQHandler false b s =
      { s with
          bitcount := s.bitcount + 1
          parity := s.parity + (if b then 1 else 0)
          shiftdata := s.shiftdata / 2 + (if b then 128 else 0) } := by
  simp only [GPIO0_IRQHandler, htx, Bool.false_eq_true, if_false]
  rw [if_neg (by omega), if_pos (by omega)]
  congr 1
  have : s.parity + (if b then 1 else 0) < 256 := by split_ifs <;> omega
  rw [Nat.mod_eq_of_lt this]

lemma rxFeed_data (ds : List Bool) :
    ∀ (s : PS2State), s.txmode = false → 1 ≤ s.bitcount →
      s.bitcount + ds.length ≤ 9 → s.parity + ds.length < 256 →
      rxFeed ds s =
        { s with
            bitcount := s.bitcount + ds.length
            parity := s.parity + ds.count true
            shiftdata := ds.foldl (fun d b => d / 2 + if b then 128 else 0) s.shiftdata } := by
  induction ds with
  | nil =>
    intro s _ _ _ _
    simp [rxFeed]
  | cons b ds ih =>
    intro s htx h1 h9 hp
    have hstep := handler_data s b htx h1 (by simp only [List.length_cons] at h9; omega)
      (by simp only [List.length_cons] at hp; omega)
    have : rxFeed (b :: ds) s = rxFeed ds (GPIO0_IRQHandler false b s) := rfl
    rw [this, ih (GPIO0_IRQHandler false b s)
      (by rw [hstep]; exact htx)
      (by rw [hstep]; show 1 ≤ s.bitcount + 1; omega)
      (by rw [hstep]; show s.bitcount + 1 + ds.length ≤ 9
          simp only [List.length_cons] at h9; omega)
      (by rw [hstep]; show s.parity + (if b then 1 else 0) + ds.length < 256
          simp only [List.length_cons] at hp; split_ifs <;> omega), hstep]
    simp only [List.count_cons, List.foldl_cons, List.length_cons]
    congr 1
    · omega
    · simp only [beq_iff_eq]
      split_ifs <;> omega

set_option maxHeartbeats 1000000 in
lemma handler_parity_fail (s : PS2State) (b : Bool) (htx : s.txmode = false)
    (h : s.bitcount = 9) (hfail : s.parity % 2 = (if b then 1 else 0)) :
    GPIO0_IRQHandler false b s = { s with bitcount := 10, parity := 0xFD } := by
  simp only [GPIO0_IRQHandler, htx, Bool.false_eq_true, if_false, h]
  norm_num [hfail]

set_option maxHeartbeats 1000000 in
lemma handler_stop_error (s : PS2State) (b : Bool) (htx : s.txmode = false)
    (h : s.bitcount = 10) (hpar : 0xFD ≤ s.parity) :
    (GPIO0_IRQHandler false b s).head = s.head ∧
    (GPIO0_IRQHandler false b s).rx_buffer = s.rx_buffer ∧
    (GPIO0_IRQHandler false b s).txmode = true ∧
    (GPIO0_IRQHandler false b s).now_send = PS2_KC_RESEND ∧
    (GPIO0_IRQHandler false b s).tx_handshake = true ∧
    (GPIO0_IRQHandler false b s).bitcount = 0 := by
  simp only [GPIO0_IRQHandler, htx, Bool.false_eq_true, if_false, h]
  norm_num
  rw [if_pos hpar]
  simp only [send_now]
  split_ifs <;> simp

/-- Claim C7: when the receive state machine completes an 11-bit frame whose
parity bit fails odd parity against the 8 data bits, the byte is discarded —
the raw ring buffer and its head pointer are untouched, so no key event can
result — and a RESEND (0xFE) transmission to the keyboard is initiated (the
driver enters transmit mode with `_now_send = 0xFE` and the handshake flag
set). -/
theorem claim_C7 (s : PS2State) (ds : List Bool) (start p stop : Bool)
    (htx : s.txmode = false) (h0 : s.bitcount = 0) (hlen : ds.length = 8)
    (hpar : (ds.count true + (if p then 1 else 0)) % 2 = 0) :
    (rxFeed (start :: (ds ++ [p, stop])) s).head = s.head ∧
    (rxFeed (start :: (ds ++ [p, stop])) s).rx_buffer = s.rx_buffer ∧
    (rxFeed (start :: (ds ++ [p, stop])) s).txmode = true ∧
    (rxFeed (start :: (ds ++ [p, stop])) s).now_send = PS2_KC_RESEND ∧
    (rxFeed (start :: (ds ++ [p, stop])) s).tx_handshake = true ∧
    (rxFeed (start :: (ds ++ [p, stop])) s).bitcount = 0 := by
  have e1 := handler_start s start htx h0
  have e2 := rxFeed_data ds { s with bitcount := 1, parity := 0, ps2busy := true }
    htx (by norm_num) (by show 1 + ds.length ≤ 9; omega) (by show 0 + ds.length < 256; omega)
  have e3 := handler_parity_fail
    { s with
        bitcount := 1 + ds.length
        parity := 0 + ds.count true
        shiftdata :=
          ds.foldl (fun d b => d / 2 + if b then 128 else 0) s.shiftdata
        ps2busy := true }
    p htx (by show 1 + ds.length = 9; omega)
    (by
      show (0 + ds.count true) % 2 = (if p then 1 else 0)
      split_ifs at hpar ⊢ <;> omega)
  have e4 := handler_stop_error
    { s with
        bitcount := 10
        parity := 0xFD
        shiftdata :=
          ds.foldl (fun d b => d / 2 + if b then 128 else 0) s.shiftdata
        ps2busy := true }
    stop htx rfl (by norm_num)
  have hfeed : rxFeed (start :: (ds ++ [p, stop])) s =
      GPIO0_IRQHandler false stop (GPIO0_IRQHandler false p
        (rxFeed ds (GPIO0_IRQHandler false start s))) := by
    simp only [rxFeed, List.foldl_cons, List.foldl_append, List.foldl_nil]
  rw [hfeed, e1, e2, e3]
  exact e4

/-- Witness for claim C7: an all-zero frame (eight 0 data bits with parity
bit 0 violates odd parity) fed to the freshly reset driver. -/
theorem claim_C7_witness :
    (rxFeed (false :: (List.replicate 8 false ++ [false, false])) ps2State0).head
        = ps2State0.head ∧
    (rxFeed (false :: (List.replicate 8 false ++ [false, false])) ps2State0).rx_buffer
        = ps2State0.rx_buffer ∧
    (rxFeed (false :: (List.replicate 8 false ++ [false, false])) ps2State0).txmode
        = true ∧
    (rxFeed (false :: (List.replicate 8 false ++ [false, false])) ps2State0).now_send
        = PS2_KC_RESEND ∧
    (rxFeed (false :: (List.replicate 8 false ++ [false, false])) ps2State0).tx_handshake
        = true ∧
    (rxFeed (false :: (List.replicate 8 false ++ [false, false])) ps2State0).bitcount
        = 0 :=
  claim_C7 ps2State0 (List.replicate 8 false) false false false
    (by decide) (by decide) (by decide) (by decide)

/-! ### Claim C9: the rotor selection and reflector are fixed for the session -/

lemma rotor_cycle_config (r : Rotor) :
    (rotor_cycle r).cipher = r.cipher ∧ (rotor_cycle r).turnover = r.turnover ∧
    (rotor_cycle r).notch = r.notch := ⟨rfl, rfl, rfl⟩

lemma engineFixed_step {m : Enigma} (h : engineFixed m) : engineFixed (enigma_step m) := by
  obtain ⟨h1, h2, h3, h4, h5, h6, h7, h8, h9, h10⟩ := h
  simp only [enigma_step]
  split_ifs <;>
    exact ⟨h1, h2, h3, h4, h5, h6, h7, h8, h9, h10⟩

/-- Claim C9: in every reachable state of the application, the cipher engine
is configured with rotors III, II, I (fast→slow) and reflector B: `FSM_Init`
and every re-entry into ENCRYPT pass the constants 3, 2, 1, 1, encryption
only steps offsets, and no other step touches the machine. -/
theorem claim_C9 (s : AppState) (h : Reachable s) : engineFixed s.machine := by
  induction h with
  | refl => exact ⟨rfl, rfl, rfl, rfl, rfl, rfl, rfl, rfl, rfl, rfl⟩
  | tail hab hstep ih =>
    cases hstep with
    | button =>
      simp only [FSM_Update]
      split_ifs with hs0 hs2
      · exact ⟨rfl, rfl, rfl, rfl, rfl, rfl, rfl, rfl, rfl, rfl⟩
      · exact ih
      · exact ih
    | key c h0 hc =>
      simp only [EnigmaAPI_EncryptChar_snd]
      exact engineFixed_step ih
    | scan reads h1 => exact ih
    | rotor delta h2 => exact ih

/-- Witness for claim C9: the boot state is reachable and correctly
configured. -/
theorem claim_C9_witness : engineFixed FSM_Init.machine :=
  claim_C9 FSM_Init Relation.ReflTransGen.refl
